import Mathlib

/-
Verification of the mova state-machine engine (Go sources: statemachine.go,
ast.go, lexer.go, and the parser file).  The Go code is shallowly embedded:
Go maps become association lists (lookup by first matching key), Go interface
values become inductive types, Go errors become an explicit error type, and
the two places where the Go code can recurse unboundedly (reference chains in
variable contexts and nested `move` during init) take an explicit fuel
parameter whose exhaustion is reported as the distinguished error `nonterm`.
-/

set_option autoImplicit false

namespace Mova

/-- Semantic value types of the language (ast.go, type ValueType). -/
inductive ValueType where
  | ValueString
  | ValueInt
  | ValueFloat
  | ValueBool
  | ValueConstant
deriving DecidableEq, Repr

/-- Model of a dynamically typed Go value (an `any`) as handled by the engine.
Distinct Go integer widths are collapsed into one constructor, because
fitType (statemachine.go) converts every width to int64 before use; float64
values are kept symbolic, represented by their source text, since the engine
never computes with them; `stringer` models a value implementing the Go
Stringer interface; `other` models every dynamic type fitType rejects. -/
inductive GoVal where
  | str (s : String)
  | int (i : Int)
  | float (repr : String)
  | bool (b : Bool)
  | stringer (s : String)
  | other (tag : Nat)
deriving DecidableEq, Repr

/-- The Value interface of ast.go as a closed sum of its implementations:
StringValue, IntValue, FloatValue, BoolValue, ConstantValue, ReferenceValue
and TypeDummyValue. -/
inductive Value where
  | StringValue (s : String)
  | IntValue (i : Int)
  | FloatValue (f : String)
  | BoolValue (b : Bool)
  | ConstantValue (v : GoVal)
  | ReferenceValue (ref : String)
  | TypeDummyValue (t : ValueType)
deriving DecidableEq, Repr

/-- Association list standing for a Go map with string keys. -/
abbrev AList (α : Type) := List (String × α)

/-- Lookup of a key: the first binding wins (Go map access). -/
def alookup {α : Type} : AList α → String → Option α
  | [], _ => none
  | (k, v) :: rest, key => if k = key then some v else alookup rest key

/-- Insertion (Go map assignment): replace the first binding of the key if it
is present, otherwise append the new binding. -/
def ainsert {α : Type} : AList α → String → α → AList α
  | [], key, v => [(key, v)]
  | (k, w) :: rest, key, v =>
    if k = key then (k, v) :: rest else (k, w) :: ainsert rest key v

/-- Deletion (Go delete): remove every binding of the key. -/
def aerase {α : Type} (l : AList α) (key : String) : AList α :=
  l.filter (fun p => p.1 ≠ key)

/-- Every error the engine can produce, including the distinguished
no-trigger-matched outcome (io.EOF in statemachine.go, Emit) and the
fuel-exhaustion marker for computations the Go code would not finish. -/
inductive Err where
  | unspecifiedTrigger (name : String)
  | unspecifiedEventData (key trg : String)
  | condTypeError (key : String) (inner : Err)
  | condTypeMismatch (key : String) (expected got : ValueType)
  | condEvalError (key : String) (inner : Err)
  | redeclMismatch (key : String) (newType prevType : ValueType)
  | unspecifiedAction (name : String)
  | unspecifiedArgument (key action : String)
  | argTypeError (key : String) (inner : Err)
  | argTypeMismatch (action key : String) (expected got : ValueType)
  | emptyMachine
  | unknownState (s : String)
  | missingEventData (n : String)
  | cannotAccept (v : GoVal)
  | emitTypeMismatch (n : String) (expected got : ValueType)
  | undefinedVariable (n : String)
  | dummyNotEvaluable
  | noTriggerMatched
  | nonterm
  | goPanic
deriving DecidableEq, Repr

/-- A variable context: name to Value, as used all over ast.go. -/
abbrev Ctx := AList Value

/-- EvalValue of the Value interface (ast.go).  The fuel bounds the length of
reference chains; every non-reference variant returns without consuming it. -/
def evalValue : Nat → Value → Ctx → Except Err GoVal
  | _, .StringValue s, _ => .ok (.str s)
  | _, .IntValue i, _ => .ok (.int i)
  | _, .FloatValue f, _ => .ok (.float f)
  | _, .BoolValue b, _ => .ok (.bool b)
  | _, .ConstantValue v, _ => .ok v
  | 0, .ReferenceValue _, _ => .error .nonterm
  | fuel + 1, .ReferenceValue r, ctx =>
    match alookup ctx r with
    | none => .error (.undefinedVariable r)
    | some v => evalValue fuel v ctx
  | _, .TypeDummyValue _, _ => .error .dummyNotEvaluable

/-- EvalType of the Value interface (ast.go). -/
def evalType : Nat → Value → Ctx → Except Err ValueType
  | _, .StringValue _, _ => .ok .ValueString
  | _, .IntValue _, _ => .ok .ValueInt
  | _, .FloatValue _, _ => .ok .ValueFloat
  | _, .BoolValue _, _ => .ok .ValueBool
  | _, .ConstantValue _, _ => .ok .ValueConstant
  | 0, .ReferenceValue _, _ => .error .nonterm
  | fuel + 1, .ReferenceValue r, ctx =>
    match alookup ctx r with
    | none => .error (.undefinedVariable r)
    | some v => evalType fuel v ctx
  | _, .TypeDummyValue t, _ => .ok t

/-- fitType (statemachine.go): wrap a dynamically typed payload value into a
Value, or fail for a dynamic type the machine cannot accept. -/
def fitType : GoVal → Except Err Value
  | .str s => .ok (.StringValue s)
  | .int i => .ok (.IntValue i)
  | .float f => .ok (.FloatValue f)
  | .bool b => .ok (.BoolValue b)
  | .stringer s => .ok (.StringValue s)
  | .other tag => .error (.cannotAccept (.other tag))

/-! ### Abstract syntax (ast.go) -/

/-- One named parameter or argument; the value is absent for a bare parameter
(a nil Value interface in Go). -/
structure Arg where
  Key : String
  Val : Option Value
deriving DecidableEq, Repr

/-- Statement interface of ast.go as a closed sum: MoveStmt and Call. -/
inductive Statement where
  | moveStmt (Dest : String)
  | call (Name : String) (Args : List Arg)
deriving DecidableEq, Repr

/-- One condition of a trigger: trigger name plus named parameters. -/
structure TriggerCond where
  Name : String
  Params : List Arg
deriving DecidableEq, Repr

/-- A trigger: one or more conditions, then the list of action statements. -/
structure Trigger where
  Cond : List TriggerCond
  Actions : List Statement
deriving DecidableEq, Repr

/-- A state: name, init statements, triggers. -/
structure State where
  Name : String
  Init : List Statement
  Triggers : List Trigger
deriving DecidableEq, Repr

/-- Entry interface of ast.go as a closed sum: State and SetStmt. -/
inductive Entry where
  | stateEntry (st : State)
  | setStmt (Key : String) (Val : Value)
deriving DecidableEq, Repr

/-- A parsed file: its top-level entries in order. -/
structure File where
  Entries : List Entry
deriving DecidableEq, Repr

/-! ### Registry (statemachine.go) -/

/-- Declared event-data fields of a trigger.  The Go Outputs map becomes an
association list. -/
structure TriggerSpec where
  Name : String
  Outputs : AList ValueType
deriving DecidableEq, Repr

/-- Declared inputs of an action.  The host callable (Function) returns no
error and is observed by no property proved here, so it is not modelled. -/
structure ActionSpec where
  Name : String
  Inputs : AList ValueType
deriving DecidableEq, Repr

/-- The host-supplied registry of triggers and actions. -/
structure Registry where
  Triggers : AList TriggerSpec
  Actions : AList ActionSpec
deriving DecidableEq, Repr

/-! ### Compiled form (statemachine.go) -/

/-- A lowered action closure.  MoveStmt.Execute yields a closure that calls
move with a fixed destination; Call.Execute yields a closure that invokes the
host callable and always returns nil, so only the shape is retained. -/
inductive Action where
  | move (dest : String)
  | call (name : String)
deriving DecidableEq, Repr

/-- A compiled condition: trigger name plus the stored constraint values. -/
structure Condition where
  TriggerName : String
  Value : AList GoVal
deriving DecidableEq, Repr

/-- Condition.Test (statemachine.go): the event name must equal the stored
trigger name and every stored constraint must be present in the payload with
an equal value. -/
def Condition.Test (cond : Condition) (name : String) (inputs : AList GoVal) : Bool :=
  cond.TriggerName == name &&
    cond.Value.all (fun p => alookup inputs p.1 == some p.2)

/-- A compiled trigger: its conditions, the declared event-data fields its
actions may use, and its lowered actions. -/
structure CompiledTrigger where
  cond : List Condition
  datatypes : AList ValueType
  actions : List Action
deriving DecidableEq, Repr

/-- CompiledTrigger.Test (statemachine.go): some condition matches. -/
def CompiledTrigger.Test (trg : CompiledTrigger) (name : String) (inputs : AList GoVal) : Bool :=
  trg.cond.any (fun c => c.Test name inputs)

/-- A compiled state: init actions and triggers. -/
structure CompiledState where
  Init : List Action
  Triggers : List CompiledTrigger
deriving DecidableEq, Repr

/-- A compiled machine: constants, the designated first state, the states. -/
structure CompiledMachine where
  constants : Ctx
  firstState : String
  states : AList CompiledState
deriving DecidableEq, Repr

/-! ### Semantic lowering (ast.go) -/

/-- Argument checking loop of Call.CheckType (ast.go): each argument must
name a declared input and have exactly the declared type.  A nil argument
value would make the Go code dereference a nil interface, modelled as the
error goPanic. -/
def checkArgs (fuel : Nat) (name : String) (spec : ActionSpec) : List Arg → Ctx → Except Err Unit
  | [], _ => .ok ()
  | param :: rest, ctx =>
    match alookup spec.Inputs param.Key with
    | none => .error (.unspecifiedArgument param.Key name)
    | some argtype =>
      match param.Val with
      | none => .error .goPanic
      | some v =>
        match evalType fuel v ctx with
        | .error e => .error (.argTypeError param.Key e)
        | .ok valuetype =>
          if valuetype = argtype then checkArgs fuel name spec rest ctx
          else .error (.argTypeMismatch name param.Key argtype valuetype)

/-- CheckType of the Statement interface (ast.go): MoveStmt.CheckType always
succeeds; Call.CheckType resolves the action and checks every argument. -/
def Statement.CheckType (fuel : Nat) (stmt : Statement) (ctx : Ctx) (reg : Registry) : Except Err Unit :=
  match stmt with
  | .moveStmt _ => .ok ()
  | .call name args =>
    match alookup reg.Actions name with
    | none => .error (.unspecifiedAction name)
    | some spec => checkArgs fuel name spec args ctx

/-- Execute of the Statement interface (ast.go): lower to an action closure. -/
def Statement.Execute : Statement → Action
  | .moveStmt d => .move d
  | .call name _ => .call name

/-- State threaded through the parameter loop of Trigger.evalTrigger:
the condition being assembled, the accumulated datatypes, the local
type-checking context, and the prevkeys mention-tracking map. -/
structure PState where
  cond : Condition
  dts : AList ValueType
  localCtx : Ctx
  pk : AList Bool
deriving DecidableEq, Repr

/-- Constraint handling for one parameter (ast.go, Trigger.evalTrigger): if
the parameter carries a value, its type must equal the declared type and the
value is evaluated eagerly against the constants and stored in the condition. -/
def condStep (fuel : Nat) (constants : Ctx) (param : Arg) (st : PState) (argtype : ValueType) : Except Err PState :=
  match param.Val with
  | none => .ok st
  | some v =>
    match evalType fuel v constants with
    | .error e => .error (.condTypeError param.Key e)
    | .ok condtype =>
      if condtype = argtype then
        match evalValue fuel v constants with
        | .error e => .error (.condEvalError param.Key e)
        | .ok val =>
          .ok { st with cond := { st.cond with Value := ainsert st.cond.Value param.Key val } }
      else .error (.condTypeMismatch param.Key argtype condtype)

/-- Declaration handling for one parameter (ast.go, Trigger.evalTrigger):
mark the name as mentioned, then either check the redeclared type against the
previous one or record the new declaration in datatypes and put a type-only
placeholder into the local context. -/
def declStep (st : PState) (key : String) (argtype : ValueType) : Except Err PState :=
  let st1 := { st with pk := ainsert st.pk key true }
  match alookup st1.dts key with
  | some prevtype =>
    if prevtype = argtype then .ok st1
    else .error (.redeclMismatch key argtype prevtype)
  | none =>
    .ok { st1 with dts := ainsert st1.dts key argtype,
                   localCtx := ainsert st1.localCtx key (.TypeDummyValue argtype) }

/-- One parameter of one condition (ast.go, Trigger.evalTrigger): resolve the
name against the declared event-data fields, then the constraint and
declaration steps. -/
def processParam (fuel : Nat) (constants : Ctx) (trgname : String) (spec : TriggerSpec)
    (st : PState) (param : Arg) : Except Err PState :=
  match alookup spec.Outputs param.Key with
  | none => .error (.unspecifiedEventData param.Key trgname)
  | some argtype =>
    match condStep fuel constants param st argtype with
    | .error e => .error e
    | .ok st1 => declStep st1 param.Key argtype

/-- The parameter loop of one condition. -/
def processParams (fuel : Nat) (constants : Ctx) (trgname : String) (spec : TriggerSpec) :
    PState → List Arg → Except Err PState
  | st, [] => .ok st
  | st, p :: rest =>
    match processParam fuel constants trgname spec st p with
    | .error e => .error e
    | .ok st1 => processParams fuel constants trgname spec st1 rest

/-- The drop loop of Trigger.evalTrigger: every previously declared name not
mentioned by the current condition is removed from datatypes and from the
local context (with a warning-level log message, not an error). -/
def dropUnmentioned : AList Bool → AList ValueType × Ctx → AList ValueType × Ctx
  | [], s => s
  | (name, mentioned) :: rest, (dts, loc) =>
    if mentioned then dropUnmentioned rest (dts, loc)
    else dropUnmentioned rest (aerase dts name, aerase loc name)

/-- State threaded across the conditions of one trigger. -/
structure TState where
  dts : AList ValueType
  localCtx : Ctx
  conds : List Condition
deriving DecidableEq, Repr

/-- One condition of Trigger.evalTrigger (ast.go): resolve the trigger name,
seed prevkeys with every previously declared name marked unmentioned, run the
parameter loop, then drop the unmentioned names. -/
def processCond (fuel : Nat) (constants : Ctx) (reg : Registry) (acc : TState)
    (c : TriggerCond) : Except Err TState :=
  match alookup reg.Triggers c.Name with
  | none => .error (.unspecifiedTrigger c.Name)
  | some spec =>
    let pk0 : AList Bool := acc.dts.map (fun p => (p.1, false))
    let st0 : PState := ⟨⟨c.Name, []⟩, acc.dts, acc.localCtx, pk0⟩
    match processParams fuel constants c.Name spec st0 c.Params with
    | .error e => .error e
    | .ok stF =>
      let dl := dropUnmentioned stF.pk (stF.dts, stF.localCtx)
      .ok ⟨dl.1, dl.2, acc.conds ++ [stF.cond]⟩

/-- The condition loop of Trigger.evalTrigger. -/
def processConds (fuel : Nat) (constants : Ctx) (reg : Registry) :
    TState → List TriggerCond → Except Err TState
  | acc, [] => .ok acc
  | acc, c :: rest =>
    match processCond fuel constants reg acc c with
    | .error e => .error e
    | .ok acc1 => processConds fuel constants reg acc1 rest

/-- The action loop shared by Trigger.evalTrigger and State.EvalToplevel:
type-check each statement against the given context and lower it. -/
def checkActions (fuel : Nat) (reg : Registry) (ctx : Ctx) : List Statement → Except Err (List Action)
  | [] => .ok []
  | stmt :: rest =>
    match stmt.CheckType fuel ctx reg with
    | .error e => .error e
    | .ok _ =>
      match checkActions fuel reg ctx rest with
      | .error e => .error e
      | .ok acts => .ok (stmt.Execute :: acts)

/-- Trigger.evalTrigger (ast.go): process the conditions starting from empty
datatypes and a clone of the constants, then check and lower the actions. -/
def Trigger.evalTrigger (fuel : Nat) (constants : Ctx) (reg : Registry) (trg : Trigger) :
    Except Err CompiledTrigger :=
  match processConds fuel constants reg ⟨[], constants, []⟩ trg.Cond with
  | .error e => .error e
  | .ok ts =>
    match checkActions fuel reg ts.localCtx trg.Actions with
    | .error e => .error e
    | .ok acts => .ok ⟨ts.conds, ts.dts, acts⟩

/-- The trigger loop of State.EvalToplevel. -/
def evalTriggers (fuel : Nat) (constants : Ctx) (reg : Registry) :
    List Trigger → Except Err (List CompiledTrigger)
  | [] => .ok []
  | trg :: rest =>
    match Trigger.evalTrigger fuel constants reg trg with
    | .error e => .error e
    | .ok ct =>
      match evalTriggers fuel constants reg rest with
      | .error e => .error e
      | .ok cts => .ok (ct :: cts)

/-- State.EvalToplevel (ast.go): check and lower the init statements against
the constants, compile the triggers, record the state, and designate it as
the first state when none is designated yet. -/
def State.EvalToplevel (fuel : Nat) (reg : Registry) (m : CompiledMachine) (st : State) :
    Except Err CompiledMachine :=
  match checkActions fuel reg m.constants st.Init with
  | .error e => .error e
  | .ok initActs =>
    match evalTriggers fuel m.constants reg st.Triggers with
    | .error e => .error e
    | .ok trgs =>
      let m1 := { m with states := ainsert m.states st.Name ⟨initActs, trgs⟩ }
      .ok (if m1.firstState = "" then { m1 with firstState := st.Name } else m1)

/-- EvalToplevel of the Entry interface: a SetStmt inserts its value into the
constants, a state entry compiles the state. -/
def Entry.EvalToplevel (fuel : Nat) (reg : Registry) (m : CompiledMachine) :
    Entry → Except Err CompiledMachine
  | .stateEntry st => State.EvalToplevel fuel reg m st
  | .setStmt k v => .ok { m with constants := ainsert m.constants k v }

/-- The entry loop of BuildMachine. -/
def buildEntries (fuel : Nat) (reg : Registry) : CompiledMachine → List Entry → Except Err CompiledMachine
  | m, [] => .ok m
  | m, e :: rest =>
    match Entry.EvalToplevel fuel reg m e with
    | .error e => .error e
    | .ok m1 => buildEntries fuel reg m1 rest

/-- The machine BuildMachine starts from: the host constants wrapped as
constant values, no designated first state, no states. -/
def initialMachine (constants : AList GoVal) : CompiledMachine :=
  ⟨constants.map (fun p => (p.1, .ConstantValue p.2)), "", []⟩

/-- BuildMachine (statemachine.go): seed the constants from the host map,
process every entry in order, and reject a machine with no states. -/
def BuildMachine (fuel : Nat) (ast : File) (reg : Registry) (constants : AList GoVal) :
    Except Err CompiledMachine :=
  match buildEntries fuel reg (initialMachine constants) ast.Entries with
  | .error e => .error e
  | .ok m => if m.states = [] then .error .emptyMachine else .ok m

/-! ### Runtime dispatch (statemachine.go)

The live machine is the compiled machine plus the current state, modelled by
the name of the current state (`none` before the first move, mirroring the
nil current pointer).  Each operation returns its outcome together with the
current state after the call, because the Go code mutates the current state
in place and reports errors separately. -/

/-- The current state of a live StateMachine: the name of the active
compiled state, or none before the first move. -/
abbrev SMCur := Option String

/-- The evaluation loop at the head of batch (statemachine.go): every context
entry is evaluated against the whole context; the first failure aborts. -/
def evalCtxGo (fuel : Nat) (ctx : Ctx) : Ctx → Except Err (AList GoVal)
  | [] => .ok []
  | (n, v) :: rest =>
    match evalValue fuel v ctx with
    | .error e => .error e
    | .ok gv =>
      match evalCtxGo fuel ctx rest with
      | .error e => .error e
      | .ok evs => .ok ((n, gv) :: evs)

/-- Evaluate a whole context into plain values, as batch does before running
the actions. -/
def evalCtx (fuel : Nat) (ctx : Ctx) : Except Err (AList GoVal) :=
  evalCtxGo fuel ctx ctx

/-- Run one action closure, given the move operation of the machine.  The
evaluated context is handed to a call closure (the host callable receives it)
but influences no observable outcome; a move closure performs the transition. -/
def runActionA (mv : String → SMCur → Except Err Unit × SMCur) :
    Action → AList GoVal → SMCur → Except Err Unit × SMCur
  | .move dest, _, cur => mv dest cur
  | .call _, _, cur => (.ok (), cur)

/-- The action loop of batch: run the closures in order; the first failure
aborts the remaining ones. -/
def runActionsA (mv : String → SMCur → Except Err Unit × SMCur) :
    List Action → AList GoVal → SMCur → Except Err Unit × SMCur
  | [], _, cur => (.ok (), cur)
  | a :: rest, ev, cur =>
    match runActionA mv a ev cur with
    | (.ok _, cur1) => runActionsA mv rest ev cur1
    | (.error e, cur1) => (.error e, cur1)

/-- batch (statemachine.go), parameterised by the move operation: evaluate
the context, then run the actions in order. -/
def batchA (mv : String → SMCur → Except Err Unit × SMCur) (fuel : Nat)
    (acts : List Action) (ctx : Ctx) (cur : SMCur) : Except Err Unit × SMCur :=
  match evalCtx fuel ctx with
  | .error e => (.error e, cur)
  | .ok ev => runActionsA mv acts ev cur

/-- move (statemachine.go): unknown destinations fail without touching the
current state; otherwise the current state is set to the destination and its
init actions are batched against the constants.  The fuel bounds the nesting
depth of moves performed by init actions, which the Go code leaves unbounded. -/
def moveM (m : CompiledMachine) : Nat → String → SMCur → Except Err Unit × SMCur
  | 0, _, cur => (.error .nonterm, cur)
  | fuel + 1, dest, cur =>
    match alookup m.states dest with
    | none => (.error (.unknownState dest), cur)
    | some st => batchA (fun d c => moveM m fuel d c) fuel st.Init m.constants (some dest)

/-- batch of a live machine: batchA with the move operation of the machine. -/
def batchM (m : CompiledMachine) (fuel : Nat) (acts : List Action) (ctx : Ctx) (cur : SMCur) :
    Except Err Unit × SMCur :=
  batchA (fun d c => moveM m fuel d c) fuel acts ctx cur

/-- The context-building loop of Emit (statemachine.go): for every declared
event-data field take the payload value (error if absent); a pass-through
constant field is wrapped directly, any other field is fitted and its type
must equal the declared type. -/
def buildCtx (m : CompiledMachine) (fuel : Nat) (inputs : AList GoVal) :
    AList ValueType → Ctx → Except Err Ctx
  | [], ctx => .ok ctx
  | (n, argtype) :: rest, ctx =>
    match alookup inputs n with
    | none => .error (.missingEventData n)
    | some v =>
      if argtype = .ValueConstant then
        buildCtx m fuel inputs rest (ainsert ctx n (.ConstantValue v))
      else
        match fitType v with
        | .error e => .error e
        | .ok newvalue =>
          match evalType fuel newvalue m.constants with
          | .error e => .error e
          | .ok valuetype =>
            if valuetype = argtype then buildCtx m fuel inputs rest (ainsert ctx n newvalue)
            else .error (.emitTypeMismatch n argtype valuetype)

/-- The body Emit runs for the selected trigger: build the execution context
starting from a clone of the constants, then batch the actions of the trigger. -/
def runTrigger (m : CompiledMachine) (fuel : Nat) (trg : CompiledTrigger)
    (inputs : AList GoVal) (cur : SMCur) : Except Err Unit × SMCur :=
  match buildCtx m fuel inputs trg.datatypes m.constants with
  | .error e => (.error e, cur)
  | .ok ctx => batchM m fuel trg.actions ctx cur

/-- The trigger loop of Emit: the first trigger that tests true is run and
the loop returns; when none matches, the distinguished no-trigger-matched
outcome (io.EOF) is reported. -/
def emitTriggers (m : CompiledMachine) (fuel : Nat) (name : String) (inputs : AList GoVal) :
    List CompiledTrigger → SMCur → Except Err Unit × SMCur
  | [], cur => (.error .noTriggerMatched, cur)
  | trg :: rest, cur =>
    if trg.Test name inputs then runTrigger m fuel trg inputs cur
    else emitTriggers m fuel name inputs rest cur

/-- Emit (statemachine.go).  Dereferencing a current state that was never set
would be a nil-pointer panic in Go, modelled as the error goPanic. -/
def Emit (m : CompiledMachine) (fuel : Nat) (name : String) (inputs : AList GoVal)
    (cur : SMCur) : Except Err Unit × SMCur :=
  match cur with
  | none => (.error .goPanic, cur)
  | some s =>
    match alookup m.states s with
    | none => (.error .goPanic, cur)
    | some st => emitTriggers m fuel name inputs st.Triggers cur

/-- CompiledMachine.New (statemachine.go): a fresh instance moves into the
designated first state (running its init) and is returned together with any
error from that move. -/
def CompiledMachine.New (m : CompiledMachine) (fuel : Nat) : Except Err Unit × SMCur :=
  moveM m fuel m.firstState none

/-! ### Line reading (lexer.go)

The input stream is a list of characters.  ReadBytes of bufio reads up to and
including the first newline; when the stream ends before a newline it returns
the partial data together with an EOF error, and readLine returns that error
to its caller, discarding the partial data, so the model drops it. -/

/-- Model of reader.ReadBytes with delimiter newline: the returned line
includes the newline; none models the EOF error near the end of input. -/
def readBytes : List Char → Option (List Char × List Char)
  | [] => none
  | c :: rest =>
    if c = '\n' then some ([c], rest)
    else
      match readBytes rest with
      | none => none
      | some (line, rem) => some (c :: line, rem)

/-- The loop of readLine (lexer.go): read one physical line; when its last
byte is a backslash, strip that byte, buffer the rest and continue with the
next physical line; otherwise return the buffered bytes plus the line.  The
fuel is an artifact of the embedding; input.length + 1 always suffices
because every iteration consumes at least one character. -/
def readLineGo : Nat → List Char → List Char → Option (List Char × List Char)
  | 0, _, _ => none
  | fuel + 1, buf, input =>
    match readBytes input with
    | none => none
    | some (line, rest) =>
      if line.getLast? = some '\\' then readLineGo fuel (buf ++ line.dropLast) rest
      else some (buf ++ line, rest)

/-- readLine (lexer.go): the next logical line of the input and the rest. -/
def readLine (input : List Char) : Option (List Char × List Char) :=
  readLineGo (input.length + 1) [] input

/-! ### Parser fragments (parser file)

Only the parts the claims are about are embedded: the token-level helpers,
parseValue, parseParam and parseArg.  A token is the pair of the rule name
and the matched text; the stream is the list of remaining tokens, with the
EOF token represented by the end of the list.  The panic-based error flow of
the parser becomes an explicit error result. -/

/-- One token from the lexer: rule name and matched text. -/
structure Tok where
  token : String
  value : String
deriving DecidableEq, Repr

/-- Parse errors (the ParseError of the parser file; only the data a claim
needs is retained). -/
inductive PErr where
  | unexpected (expected : List String) (tokentype tokenvalue : String)
  | badLiteral (s : String)
deriving DecidableEq, Repr

/-- expect (parser file): the current token must have the given rule name;
its text is returned and the stream advances. -/
def pExpect (name : String) : List Tok → Except PErr (String × List Tok)
  | [] => .error (.unexpected [name] "EOF" "")
  | t :: rest =>
    if t.token = name then .ok (t.value, rest)
    else .error (.unexpected [name] t.token t.value)

/-- The text of the current token (p.Value); the EOF token has empty text. -/
def peekValue : List Tok → String
  | [] => ""
  | t :: _ => t.value

/-- The escape decoding applied to string literals by parseValue: each listed
two-character escape is replaced, scanning left to right without overlap. -/
def unescape : List Char → List Char
  | '\\' :: '"' :: rest => '"' :: unescape rest
  | '\\' :: '\'' :: rest => '\'' :: unescape rest
  | '\\' :: 'a' :: rest => '\x07' :: unescape rest
  | '\\' :: 'b' :: rest => '\x08' :: unescape rest
  | '\\' :: 'e' :: rest => '\x1b' :: unescape rest
  | '\\' :: 'f' :: rest => '\x0c' :: unescape rest
  | '\\' :: 'n' :: rest => '\n' :: unescape rest
  | '\\' :: 'r' :: rest => '\r' :: unescape rest
  | '\\' :: 't' :: rest => '\t' :: unescape rest
  | '\\' :: 'v' :: rest => '\x0b' :: unescape rest
  | '\\' :: '\\' :: rest => '\\' :: unescape rest
  | c :: rest => c :: unescape rest
  | [] => []

/-- Decimal digit run to a number; none when empty or a non-digit appears. -/
def parseDigits : List Char → Option Nat
  | [] => none
  | ds => go ds 0
where
  go : List Char → Nat → Option Nat
  | [], acc => some acc
  | c :: rest, acc =>
    if c.isDigit then go rest (acc * 10 + (c.toNat - '0'.toNat))
    else none

/-- Model of strconv.ParseInt with base 10 and 64 bits: optional sign, then
digits; out-of-range values fail (the parser panics on that failure). -/
def goParseInt (s : String) : Option Int :=
  match s.toList with
  | '+' :: ds => (parseDigits ds).bind fun n => if n ≤ 2 ^ 63 - 1 then some (n : Int) else none
  | '-' :: ds => (parseDigits ds).bind fun n => if n ≤ 2 ^ 63 then some (-(n : Int)) else none
  | ds => (parseDigits ds).bind fun n => if n ≤ 2 ^ 63 - 1 then some (n : Int) else none

/-- parseValue (parser file): literals become constant values (the string
literal is stripped of its quotes and unescaped; the float stays symbolic as
its text), an identifier becomes a reference to the same-named variable. -/
def parseValue : List Tok → Except PErr (Value × List Tok)
  | [] => .error (.unexpected ["string", "int", "float", "bool", "identifier"] "EOF" "")
  | t :: rest =>
    match t.token with
    | "string" =>
      .ok (.ConstantValue (.str (String.mk (unescape ((t.value.toList.drop 1).dropLast)))), rest)
    | "int" =>
      match goParseInt t.value with
      | some i => .ok (.ConstantValue (.int i), rest)
      | none => .error (.badLiteral t.value)
    | "float" => .ok (.ConstantValue (.float t.value), rest)
    | "bool" => .ok (.ConstantValue (.bool (t.value = "true")), rest)
    | "identifier" => .ok (.ReferenceValue t.value, rest)
    | _ => .error (.unexpected ["string", "int", "float", "bool", "identifier"] t.token t.value)

/-- parseParam (parser file): an identifier, optionally followed by an equals
sign and a value; a bare parameter carries no value. -/
def parseParam (toks : List Tok) : Except PErr (Arg × List Tok) :=
  match pExpect "identifier" toks with
  | .error e => .error e
  | .ok (key, rest) =>
    if peekValue rest = "=" then
      match parseValue (rest.drop 1) with
      | .error e => .error e
      | .ok (v, rest1) => .ok (⟨key, some v⟩, rest1)
    else .ok (⟨key, none⟩, rest)

/-- parseArg (parser file): an identifier, optionally followed by an equals
sign and a value; a bare argument becomes a reference to the same-named
variable. -/
def parseArg (toks : List Tok) : Except PErr ((String × Value) × List Tok) :=
  match pExpect "identifier" toks with
  | .error e => .error e
  | .ok (key, rest) =>
    if peekValue rest = "=" then
      match parseValue (rest.drop 1) with
      | .error e => .error e
      | .ok (v, rest1) => .ok ((key, v), rest1)
    else .ok ((key, .ReferenceValue key), rest)

/-! ### Lemmas about the association-list map operations -/

theorem alookup_ainsert {α : Type} (l : AList α) (k : String) (v : α) (k' : String) :
    alookup (ainsert l k v) k' = if k = k' then some v else alookup l k' := by
  induction l with
  | nil => simp [ainsert, alookup]
  | cons p rest ih =>
    obtain ⟨pk, pv⟩ := p
    by_cases h1 : pk = k
    · subst h1
      by_cases h2 : pk = k' <;> simp [ainsert, alookup, h2]
    · by_cases h2 : pk = k'
      · subst h2
        simp [ainsert, alookup, h1, Ne.symm h1]
      · simp [ainsert, alookup, h1, h2, ih]

theorem alookup_aerase {α : Type} (l : AList α) (k k' : String) :
    alookup (aerase l k) k' = if k' = k then none else alookup l k' := by
  induction l with
  | nil => simp [aerase, alookup]
  | cons p rest ih =>
    obtain ⟨pk, pv⟩ := p
    by_cases h1 : pk = k
    · subst h1
      have he : aerase ((pk, pv) :: rest) pk = aerase rest pk := by
        simp [aerase]
      rw [he, ih]
      by_cases h2 : k' = pk
      · simp [h2]
      · have h3 : pk ≠ k' := fun h => h2 h.symm
        simp [h2, alookup, h3]
    · have he : aerase ((pk, pv) :: rest) k = (pk, pv) :: aerase rest k := by
        simp [aerase, h1]
      rw [he]
      simp only [alookup]
      by_cases h2 : pk = k'
      · subst h2
        have h3 : ¬pk = k := h1
        simp [h3]
      · simp [h2, ih]

theorem alookup_mark_false {α : Type} (l : AList α) (k : String) :
    alookup (l.map (fun p => (p.1, false))) k = (alookup l k).map (fun _ => false) := by
  induction l with
  | nil => simp [alookup]
  | cons p rest ih =>
    by_cases h : p.1 = k <;> simp [alookup, h, ih]

/-! ### Dispatch helper lemmas -/

/-- Triggers that do not test true are skipped by the trigger loop of Emit. -/
theorem emitTriggers_no_match (m : CompiledMachine) (fuel : Nat) (name : String)
    (inputs : AList GoVal) (pre l : List CompiledTrigger) (cur : SMCur)
    (h : ∀ t ∈ pre, t.Test name inputs = false) :
    emitTriggers m fuel name inputs (pre ++ l) cur = emitTriggers m fuel name inputs l cur := by
  induction pre with
  | nil => simp
  | cons t rest ih =>
    have ht : t.Test name inputs = false := h t (by simp)
    simp only [List.cons_append, emitTriggers, ht, Bool.false_eq_true, if_false]
    exact ih (fun t' h' => h t' (by simp [h']))

/-- The action loop splits over list append: the second part runs only when
the whole first part succeeded. -/
theorem runActionsA_append (mv : String → SMCur → Except Err Unit × SMCur)
    (l1 l2 : List Action) (ev : AList GoVal) (cur : SMCur) :
    runActionsA mv (l1 ++ l2) ev cur =
      match runActionsA mv l1 ev cur with
      | (.ok _, cur1) => runActionsA mv l2 ev cur1
      | (.error e, cur1) => (.error e, cur1) := by
  induction l1 generalizing cur with
  | nil => simp [runActionsA]
  | cons a rest ih =>
    simp only [List.cons_append, runActionsA]
    rcases h : runActionA mv a ev cur with ⟨r, cur1⟩
    cases r with
    | ok u => simp [ih]
    | error e => simp

/-- The argument-checking loop splits over list append. -/
theorem checkArgs_append (fuel : Nat) (name : String) (spec : ActionSpec)
    (l1 l2 : List Arg) (ctx : Ctx) :
    checkArgs fuel name spec (l1 ++ l2) ctx =
      match checkArgs fuel name spec l1 ctx with
      | .ok _ => checkArgs fuel name spec l2 ctx
      | .error e => .error e := by
  induction l1 with
  | nil => simp [checkArgs]
  | cons p rest ih =>
    simp only [List.cons_append, checkArgs]
    cases halk : alookup spec.Inputs p.Key with
    | none => simp
    | some argtype =>
      cases hval : p.Val with
      | none => simp
      | some v =>
        cases het : evalType fuel v ctx with
        | error e => simp [het]
        | ok vt =>
          by_cases h : vt = argtype <;> simp [h, het, ih]

/-- The context-building loop of Emit splits over list append. -/
theorem buildCtx_append (m : CompiledMachine) (fuel : Nat) (inputs : AList GoVal)
    (l1 l2 : AList ValueType) (ctx : Ctx) :
    buildCtx m fuel inputs (l1 ++ l2) ctx =
      match buildCtx m fuel inputs l1 ctx with
      | .ok ctx1 => buildCtx m fuel inputs l2 ctx1
      | .error e => .error e := by
  induction l1 generalizing ctx with
  | nil => simp [buildCtx]
  | cons p rest ih =>
    obtain ⟨n, argtype⟩ := p
    simp only [List.cons_append, buildCtx]
    cases hin : alookup inputs n with
    | none => simp
    | some v =>
      by_cases hc : argtype = ValueType.ValueConstant
      · simp [hc, ih]
      · simp only [hc, if_false]
        cases hf : fitType v with
        | error e => simp [hf]
        | ok nv =>
          cases het : evalType fuel nv m.constants with
          | error e => simp [hf, het]
          | ok vt =>
            by_cases h : vt = argtype <;> simp [h, hf, het, ih]

/-- The parameter loop of one condition splits over list append. -/
theorem processParams_append (fuel : Nat) (constants : Ctx) (trgname : String)
    (spec : TriggerSpec) (st : PState) (l1 l2 : List Arg) :
    processParams fuel constants trgname spec st (l1 ++ l2) =
      match processParams fuel constants trgname spec st l1 with
      | .ok st1 => processParams fuel constants trgname spec st1 l2
      | .error e => .error e := by
  induction l1 generalizing st with
  | nil => simp [processParams]
  | cons p rest ih =>
    simp only [List.cons_append, processParams]
    cases hp : processParam fuel constants trgname spec st p with
    | error e => simp
    | ok st1 => simp [ih]

/-! ### Claim C1 -/

/-- C1: for every call to Emit, the triggers of the current state are scanned
in declaration order; the first trigger that tests true is the only one whose
actions run, and the result of the call does not depend on the triggers after
it (they are neither tested nor run).  A condition matches exactly when its
stored trigger name equals the event name and every stored constraint key is
present in the payload with an equal value. -/
theorem c1_emit_first_match_only
    (m : CompiledMachine) (fuel : Nat) (name s : String) (inputs : AList GoVal)
    (st : CompiledState) (pre rest : List CompiledTrigger) (t : CompiledTrigger)
    (hs : alookup m.states s = some st)
    (htrg : st.Triggers = pre ++ t :: rest)
    (hpre : ∀ t' ∈ pre, t'.Test name inputs = false)
    (ht : t.Test name inputs = true) :
    Emit m fuel name inputs (some s) = runTrigger m fuel t inputs (some s)
    ∧ (t.Test name inputs = true ↔
        ∃ c ∈ t.cond, c.TriggerName = name ∧ ∀ p ∈ c.Value, alookup inputs p.1 = some p.2) := by
  constructor
  · simp only [Emit, hs]
    rw [htrg, emitTriggers_no_match m fuel name inputs pre _ _ hpre]
    simp [emitTriggers, ht]
  · simp [CompiledTrigger.Test, List.any_eq_true, Condition.Test, List.all_eq_true]

def c1t0 : CompiledTrigger := ⟨[⟨"X", []⟩], [], []⟩

def c1t1 : CompiledTrigger := ⟨[⟨"E", []⟩], [], [.call "a"]⟩

def c1t2 : CompiledTrigger := ⟨[⟨"E", []⟩], [], [.call "b"]⟩

def c1m : CompiledMachine := ⟨[], "s", [("s", ⟨[], [c1t0, c1t1, c1t2]⟩)]⟩

/-- Witness for C1 at a concrete machine: with a non-matching first trigger
and two matching ones, Emit runs exactly the first matching trigger. -/
theorem c1_emit_first_match_only_witness :
    Emit c1m 5 "E" [("k", GoVal.int 1)] (some "s")
      = runTrigger c1m 5 c1t1 [("k", GoVal.int 1)] (some "s") :=
  (c1_emit_first_match_only c1m 5 "E" "s" [("k", GoVal.int 1)]
    ⟨[], [c1t0, c1t1, c1t2]⟩ [c1t0] [c1t2] c1t1 rfl rfl (by decide) (by decide)).1

/-! ### Claim C5 -/

/-- State a of the scenario from the specification. -/
def specStateA : State :=
  ⟨"a", [], [⟨[⟨"A", [⟨"event", some (.IntValue 1)⟩]⟩], [.moveStmt "b"]⟩]⟩

/-- State b of the scenario from the specification. -/
def specStateB : State :=
  ⟨"b", [], [⟨[⟨"B", [⟨"event", some (.IntValue 0)⟩]⟩], [.moveStmt "a"]⟩]⟩

/-- The AST of the scenario from the specification: two states a and b, each
with one trigger constrained on the integer event-data field event. -/
def specAst : File := ⟨[.stateEntry specStateA, .stateEntry specStateB]⟩

/-- Registry for the scenario: triggers A and B with one integer field each. -/
def specReg : Registry :=
  ⟨[("A", ⟨"A", [("event", .ValueInt)]⟩), ("B", ⟨"B", [("event", .ValueInt)]⟩)], []⟩

/-- The machine compiled from the scenario source. -/
def specM : CompiledMachine :=
  match BuildMachine 9 specAst specReg [] with
  | .ok m => m
  | .error _ => ⟨[], "", []⟩

/-- C5: when no condition of any trigger of the current state matches, Emit
returns the distinguished no-trigger-matched outcome, which is a different
value from every runtime error, and leaves the current state unchanged; in
the scenario of the specification, emitting A with event 2 in state a yields
no-trigger-matched and the state stays a (while event 1 transitions to b). -/
theorem c5_no_trigger_matched
    (m : CompiledMachine) (fuel : Nat) (name s : String) (inputs : AList GoVal)
    (st : CompiledState)
    (hs : alookup m.states s = some st)
    (hno : ∀ t ∈ st.Triggers, t.Test name inputs = false) :
    Emit m fuel name inputs (some s) = (.error .noTriggerMatched, some s)
    ∧ (∀ d, Err.noTriggerMatched ≠ .unknownState d)
    ∧ (∀ n, Err.noTriggerMatched ≠ .missingEventData n)
    ∧ (∀ n t1 t2, Err.noTriggerMatched ≠ .emitTypeMismatch n t1 t2)
    ∧ Err.noTriggerMatched ≠ .nonterm
    ∧ BuildMachine 9 specAst specReg [] = .ok specM
    ∧ Emit specM 9 "A" [("event", .int 2)] (some "a") = (.error .noTriggerMatched, some "a")
    ∧ Emit specM 9 "A" [("event", .int 1)] (some "a") = (.ok (), some "b") := by
  refine ⟨?_, by simp, by simp, by simp, by simp, by rfl, by rfl, by rfl⟩
  simp only [Emit, hs]
  rw [show st.Triggers = st.Triggers ++ [] by simp,
    emitTriggers_no_match m fuel name inputs st.Triggers [] (some s) hno]
  rfl

/-- Witness for C5: in state b of the scenario machine, event A matches no
trigger, so Emit reports no-trigger-matched and stays in b. -/
theorem c5_no_trigger_matched_witness :
    Emit specM 9 "A" [("event", GoVal.int 5)] (some "b") = (.error .noTriggerMatched, some "b") :=
  (c5_no_trigger_matched specM 9 "A" "b" [("event", GoVal.int 5)] _ rfl (by decide)).1

/-! ### Claim C4 -/

/-- C4: during one Emit call, the action closures of the selected trigger run
in order; when one fails, its error is the result of the Emit call and the
remaining actions of the trigger do not run (the conclusion does not depend
on the actions after the failing one).  Call closures and move closures are
covered alike, since the loop treats every closure uniformly. -/
theorem c4_action_failure_aborts
    (m : CompiledMachine) (fuel : Nat) (name s : String) (inputs : AList GoVal)
    (st : CompiledState) (pre rest : List CompiledTrigger) (t : CompiledTrigger)
    (apre arest : List Action) (a : Action) (ctx : Ctx) (ev : AList GoVal)
    (cur1 cur2 : SMCur) (e : Err)
    (hs : alookup m.states s = some st)
    (htrg : st.Triggers = pre ++ t :: rest)
    (hpre : ∀ t' ∈ pre, t'.Test name inputs = false)
    (ht : t.Test name inputs = true)
    (hacts : t.actions = apre ++ a :: arest)
    (hctx : buildCtx m fuel inputs t.datatypes m.constants = .ok ctx)
    (hev : evalCtx fuel ctx = .ok ev)
    (hok : runActionsA (fun d c => moveM m fuel d c) apre ev (some s) = (.ok (), cur1))
    (hfail : runActionA (fun d c => moveM m fuel d c) a ev cur1 = (.error e, cur2)) :
    Emit m fuel name inputs (some s) = (.error e, cur2) := by
  simp only [Emit, hs]
  rw [htrg, emitTriggers_no_match m fuel name inputs pre _ _ hpre]
  simp only [emitTriggers, ht, if_true]
  rw [runTrigger, hctx]
  simp only [batchM, batchA, hev]
  rw [hacts, runActionsA_append, hok]
  simp only [runActionsA, hfail]

def c4t : CompiledTrigger := ⟨[⟨"E", []⟩], [], [.call "ok", .move "nowhere", .call "never"]⟩

def c4m : CompiledMachine := ⟨[], "s", [("s", ⟨[], [c4t]⟩)]⟩

/-- Witness for C4: a trigger whose second action moves to an unknown state
makes Emit return that error, and the third action does not run. -/
theorem c4_action_failure_aborts_witness :
    Emit c4m 5 "E" [] (some "s") = (.error (.unknownState "nowhere"), some "s") :=
  c4_action_failure_aborts c4m 5 "E" "s" [] ⟨[], [c4t]⟩ [] [] c4t
    [.call "ok"] [.call "never"] (.move "nowhere") [] [] (some "s") (some "s")
    (.unknownState "nowhere") rfl rfl (by decide) (by decide) rfl rfl rfl rfl rfl

/-! ### Claim C7 -/

/-- A live instance is valid when its current state names a state of the
compiled machine. -/
def ValidCur (m : CompiledMachine) (cur : SMCur) : Prop :=
  ∃ s st, cur = some s ∧ alookup m.states s = some st

/-- The action loop preserves validity when the move operation does. -/
theorem runActionsA_valid (m : CompiledMachine)
    (mv : String → SMCur → Except Err Unit × SMCur)
    (hmv : ∀ d c, ValidCur m c → ValidCur m (mv d c).2)
    (acts : List Action) (ev : AList GoVal) (cur : SMCur) (h : ValidCur m cur) :
    ValidCur m (runActionsA mv acts ev cur).2 := by
  induction acts generalizing cur with
  | nil => simpa [runActionsA] using h
  | cons a rest ih =>
    cases a with
    | move d =>
      rcases h1 : mv d cur with ⟨r, cur1⟩
      have hv1 : ValidCur m cur1 := by
        have := hmv d cur h
        rwa [h1] at this
      cases r with
      | ok u => simpa [runActionsA, runActionA, h1] using ih cur1 hv1
      | error e => simpa [runActionsA, runActionA, h1] using hv1
    | call nm => simpa [runActionsA, runActionA] using ih cur h

/-- batch preserves validity when the move operation does. -/
theorem batchA_valid (m : CompiledMachine)
    (mv : String → SMCur → Except Err Unit × SMCur)
    (hmv : ∀ d c, ValidCur m c → ValidCur m (mv d c).2)
    (fuel : Nat) (acts : List Action) (ctx : Ctx) (cur : SMCur) (h : ValidCur m cur) :
    ValidCur m (batchA mv fuel acts ctx cur).2 := by
  rw [batchA]
  cases evalCtx fuel ctx with
  | error e => simpa using h
  | ok ev => exact runActionsA_valid m mv hmv acts ev cur h

/-- move preserves validity: an unknown destination leaves the current state
untouched, a known one makes it the destination, a valid state. -/
theorem moveM_valid (m : CompiledMachine) :
    ∀ (fuel : Nat) (dest : String) (cur : SMCur), ValidCur m cur →
      ValidCur m (moveM m fuel dest cur).2 := by
  intro fuel
  induction fuel with
  | zero => intro dest cur h; simpa [moveM] using h
  | succ f ih =>
    intro dest cur h
    rw [moveM]
    cases hd : alookup m.states dest with
    | none => simpa using h
    | some st =>
      exact batchA_valid m _ (fun d c hc => ih d c hc) f st.Init m.constants (some dest)
        ⟨dest, st, rfl, hd⟩

/-- The trigger loop of Emit preserves validity. -/
theorem emitTriggers_valid (m : CompiledMachine) (fuel : Nat) (name : String)
    (inputs : AList GoVal) (trgs : List CompiledTrigger) (cur : SMCur)
    (h : ValidCur m cur) : ValidCur m (emitTriggers m fuel name inputs trgs cur).2 := by
  induction trgs with
  | nil => simpa [emitTriggers] using h
  | cons t rest ih =>
    rw [emitTriggers]
    by_cases ht : t.Test name inputs
    · simp only [ht, if_true]
      rw [runTrigger]
      cases buildCtx m fuel inputs t.datatypes m.constants with
      | error e => simpa using h
      | ok ctx =>
        exact batchA_valid m _ (fun d c hc => moveM_valid m fuel d c hc)
          fuel t.actions ctx cur h
    · simpa [ht] using ih

/-- C7: every emit or move call, whatever its outcome (unknown destination,
missing event-data, payload type mismatch, failing action, or success),
leaves the instance pointing at a state of the machine; a failing move never
leaves the machine stuck between states. -/
theorem c7_errors_leave_instance_valid
    (m : CompiledMachine) (fuel : Nat) (name dest : String) (inputs : AList GoVal)
    (cur : SMCur) (h : ValidCur m cur) :
    ValidCur m (Emit m fuel name inputs cur).2 ∧ ValidCur m (moveM m fuel dest cur).2 := by
  refine ⟨?_, moveM_valid m fuel dest cur h⟩
  obtain ⟨s, st, rfl, hs⟩ := h
  simp only [Emit, hs]
  exact emitTriggers_valid m fuel name inputs st.Triggers (some s) ⟨s, st, rfl, hs⟩

/-- Witness for C7: a failing emit (unknown event) and a failing move
(unknown destination) on the scenario machine leave the instance valid. -/
theorem c7_errors_leave_instance_valid_witness :
    ValidCur specM (Emit specM 9 "Z" [] (some "a")).2
    ∧ ValidCur specM (moveM specM 9 "nope" (some "a")).2 :=
  c7_errors_leave_instance_valid specM 9 "Z" "nope" [] (some "a") ⟨"a", _, rfl, rfl⟩

/-! ### Claim C3 -/

def c3t : CompiledTrigger := ⟨[⟨"E", []⟩], [("f", .ValueFloat)], []⟩

def c3m : CompiledMachine := ⟨[], "s", [("s", ⟨[], [c3t]⟩)]⟩

/-- C3: type mismatches are rejected with no implicit numeric coercion.
First conjunct: a condition constraint whose value evaluates to a type other
than the declared one fails compilation of the trigger with a type-mismatch
error.  Second conjunct: an action argument whose value evaluates to a type
other than the declared input type fails compilation with a type-mismatch
error.  Third conjunct: at Emit time, a payload value for a declared
non-pass-through event-data field whose fitted type differs from the declared
type makes the Emit call return a type-mismatch error and leaves the state
unchanged.  Fourth conjunct: in particular, an integer payload supplied where
float is declared is a type-mismatch error, never a silent cast. -/
theorem c3_no_implicit_coercion :
    (∀ (fuel : Nat) (constants : Ctx) (trgname : String) (spec : TriggerSpec)
       (st st' : PState) (pre rest : List Arg) (param : Arg) (argtype : ValueType)
       (v : Value) (condtype : ValueType),
       processParams fuel constants trgname spec st pre = .ok st' →
       alookup spec.Outputs param.Key = some argtype →
       param.Val = some v →
       evalType fuel v constants = .ok condtype →
       condtype ≠ argtype →
       processParams fuel constants trgname spec st (pre ++ param :: rest)
         = .error (.condTypeMismatch param.Key argtype condtype))
    ∧ (∀ (fuel : Nat) (ctx : Ctx) (reg : Registry) (name : String) (spec : ActionSpec)
         (pre rest : List Arg) (param : Arg) (argtype : ValueType) (v : Value)
         (vt : ValueType),
         alookup reg.Actions name = some spec →
         checkArgs fuel name spec pre ctx = .ok () →
         alookup spec.Inputs param.Key = some argtype →
         param.Val = some v →
         evalType fuel v ctx = .ok vt →
         vt ≠ argtype →
         Statement.CheckType fuel (.call name (pre ++ param :: rest)) ctx reg
           = .error (.argTypeMismatch name param.Key argtype vt))
    ∧ (∀ (m : CompiledMachine) (fuel : Nat) (name s : String) (inputs : AList GoVal)
         (st : CompiledState) (pre rest : List CompiledTrigger) (t : CompiledTrigger)
         (dpre drest : AList ValueType) (n : String) (ty : ValueType) (v : GoVal)
         (nv : Value) (vt : ValueType) (ctx1 : Ctx),
         alookup m.states s = some st →
         st.Triggers = pre ++ t :: rest →
         (∀ t' ∈ pre, t'.Test name inputs = false) →
         t.Test name inputs = true →
         t.datatypes = dpre ++ (n, ty) :: drest →
         buildCtx m fuel inputs dpre m.constants = .ok ctx1 →
         ty ≠ .ValueConstant →
         alookup inputs n = some v →
         fitType v = .ok nv →
         evalType fuel nv m.constants = .ok vt →
         vt ≠ ty →
         Emit m fuel name inputs (some s) = (.error (.emitTypeMismatch n ty vt), some s))
    ∧ Emit c3m 5 "E" [("f", .int 7)] (some "s")
        = (.error (.emitTypeMismatch "f" .ValueFloat .ValueInt), some "s") := by
  refine ⟨?_, ?_, ?_, by rfl⟩
  · intro fuel constants trgname spec st st' pre rest param argtype v condtype
      hpre hout hval het hne
    rw [processParams_append, hpre]
    simp only [processParams, processParam, hout, condStep, hval, het, hne, if_false]
  · intro fuel ctx reg name spec pre rest param argtype v vt hact hpre hin hval het hne
    simp only [Statement.CheckType, hact]
    rw [checkArgs_append, hpre]
    simp only [checkArgs, hin, hval, het, hne, if_false]
  · intro m fuel name s inputs st pre rest t dpre drest n ty v nv vt ctx1
      hs htrg hpre ht hdts hctx1 hty hin hf het hne
    simp only [Emit, hs]
    rw [htrg, emitTriggers_no_match m fuel name inputs pre _ _ hpre]
    simp only [emitTriggers, ht, if_true]
    rw [runTrigger, hdts, buildCtx_append, hctx1]
    simp only [buildCtx, hin, hty, if_false, hf, het, hne]

/-- Witness for C3: a string constraint on an integer field fails trigger
compilation; an integer argument for a float input fails action compilation;
an integer payload for the float field of the c3m machine makes Emit fail
with a type mismatch. -/
theorem c3_no_implicit_coercion_witness :
    processParams 5 [] "T" ⟨"T", [("x", .ValueInt)]⟩ ⟨⟨"T", []⟩, [], [], []⟩
        [⟨"x", some (.StringValue "s")⟩]
      = .error (.condTypeMismatch "x" .ValueInt .ValueString)
    ∧ Statement.CheckType 5 (.call "act" [⟨"k", some (.IntValue 3)⟩]) []
        ⟨[], [("act", ⟨"act", [("k", .ValueFloat)]⟩)]⟩
      = .error (.argTypeMismatch "act" "k" .ValueFloat .ValueInt)
    ∧ Emit c3m 5 "E" [("f", .int 7)] (some "s")
      = (.error (.emitTypeMismatch "f" .ValueFloat .ValueInt), some "s") :=
  ⟨c3_no_implicit_coercion.1 5 [] "T" ⟨"T", [("x", .ValueInt)]⟩ ⟨⟨"T", []⟩, [], [], []⟩ _
      [] [] ⟨"x", some (.StringValue "s")⟩ .ValueInt (.StringValue "s") .ValueString
      rfl rfl rfl rfl (by decide),
   c3_no_implicit_coercion.2.1 5 [] ⟨[], [("act", ⟨"act", [("k", .ValueFloat)]⟩)]⟩ "act"
      ⟨"act", [("k", .ValueFloat)]⟩ [] [] ⟨"k", some (.IntValue 3)⟩ .ValueFloat
      (.IntValue 3) .ValueInt rfl rfl rfl rfl rfl (by decide),
   c3_no_implicit_coercion.2.2.1 c3m 5 "E" "s" [("f", .int 7)] ⟨[], [c3t]⟩ [] [] c3t
      [] [] "f" .ValueFloat (.int 7) (.IntValue 7) .ValueInt []
      rfl rfl (by decide) (by decide) rfl rfl (by decide) rfl rfl rfl (by decide)⟩

/-! ### Build-step lemmas shared by C6 and C10 -/

/-- The entry loop splits over list append. -/
theorem buildEntries_append (fuel : Nat) (reg : Registry) (m : CompiledMachine)
    (l1 l2 : List Entry) :
    buildEntries fuel reg m (l1 ++ l2) =
      match buildEntries fuel reg m l1 with
      | .ok m1 => buildEntries fuel reg m1 l2
      | .error e => .error e := by
  induction l1 generalizing m with
  | nil => simp [buildEntries]
  | cons e rest ih =>
    simp only [List.cons_append, buildEntries]
    cases Entry.EvalToplevel fuel reg m e with
    | error err => simp
    | ok m1 => simp [ih]

/-- A successfully compiled state entry records the state under its name and
designates it as first state exactly when none was designated before. -/
theorem evalToplevel_state_shape (fuel : Nat) (reg : Registry) (m : CompiledMachine)
    (st : State) (m' : CompiledMachine)
    (h : State.EvalToplevel fuel reg m st = .ok m') :
    ∃ cst, m'.states = ainsert m.states st.Name cst
      ∧ m'.firstState = (if m.firstState = "" then st.Name else m.firstState) := by
  rw [State.EvalToplevel] at h
  cases h1 : checkActions fuel reg m.constants st.Init with
  | error e => rw [h1] at h; exact absurd h (by simp)
  | ok initActs =>
    rw [h1] at h
    cases h2 : evalTriggers fuel m.constants reg st.Triggers with
    | error e => rw [h2] at h; exact absurd h (by simp)
    | ok trgs =>
      rw [h2] at h
      simp only [Except.ok.injEq] at h
      subst h
      by_cases hf : m.firstState = "" <;> simp [hf]

/-- Processing only constant assignments succeeds and changes neither the
states nor the designated first state. -/
theorem buildEntries_all_set (fuel : Nat) (reg : Registry) (m : CompiledMachine)
    (entries : List Entry) (h : ∀ e ∈ entries, ∃ k v, e = .setStmt k v) :
    ∃ m1, buildEntries fuel reg m entries = .ok m1
      ∧ m1.states = m.states ∧ m1.firstState = m.firstState := by
  induction entries generalizing m with
  | nil => exact ⟨m, rfl, rfl, rfl⟩
  | cons e rest ih =>
    obtain ⟨k, v, rfl⟩ := h e (by simp)
    obtain ⟨m1, h1, h2, h3⟩ := ih { m with constants := ainsert m.constants k v }
      (fun e' he' => h e' (by simp [he']))
    exact ⟨m1, by simpa [buildEntries, Entry.EvalToplevel] using h1, h2, h3⟩

/-- A state once present stays present through the remaining entries. -/
theorem buildEntries_states_mono (fuel : Nat) (reg : Registry)
    (entries : List Entry) (m m' : CompiledMachine)
    (h : buildEntries fuel reg m entries = .ok m') (s : String)
    (hpres : (alookup m.states s).isSome) : (alookup m'.states s).isSome := by
  induction entries generalizing m with
  | nil =>
    rw [buildEntries, Except.ok.injEq] at h
    subst h; exact hpres
  | cons e rest ih =>
    rw [buildEntries] at h
    cases h1 : Entry.EvalToplevel fuel reg m e with
    | error err => rw [h1] at h; exact absurd h (by simp)
    | ok m1 =>
      rw [h1] at h
      refine ih m1 h ?_
      cases e with
      | setStmt k v =>
        rw [Entry.EvalToplevel, Except.ok.injEq] at h1
        subst h1; exact hpres
      | stateEntry st =>
        obtain ⟨cst, hs, _⟩ := evalToplevel_state_shape fuel reg m st m1 h1
        rw [hs, alookup_ainsert]
        by_cases hn : st.Name = s <;> simp [hn, hpres]

/-- A state entry of the list ends up present in the compiled states. -/
theorem buildEntries_state_present (fuel : Nat) (reg : Registry)
    (entries : List Entry) (m m' : CompiledMachine) (st : State)
    (h : buildEntries fuel reg m entries = .ok m')
    (hmem : .stateEntry st ∈ entries) : (alookup m'.states st.Name).isSome := by
  induction entries generalizing m with
  | nil => exact absurd hmem (List.not_mem_nil _)
  | cons e rest ih =>
    rw [buildEntries] at h
    cases h1 : Entry.EvalToplevel fuel reg m e with
    | error err => rw [h1] at h; exact absurd h (by simp)
    | ok m1 =>
      rw [h1] at h
      rcases List.mem_cons.mp hmem with he | he
      · subst he
        obtain ⟨cst, hs, _⟩ := evalToplevel_state_shape fuel reg m st m1 h1
        refine buildEntries_states_mono fuel reg rest m1 m' h st.Name ?_
        rw [hs, alookup_ainsert]
        simp
      · exact ih m1 h he

/-- A first state designated as a nonempty name survives the rest of the
entries. -/
theorem buildEntries_firstState_persist (fuel : Nat) (reg : Registry)
    (entries : List Entry) (m m' : CompiledMachine)
    (h : buildEntries fuel reg m entries = .ok m') (hne : m.firstState ≠ "") :
    m'.firstState = m.firstState := by
  induction entries generalizing m with
  | nil =>
    rw [buildEntries, Except.ok.injEq] at h
    subst h; rfl
  | cons e rest ih =>
    rw [buildEntries] at h
    cases h1 : Entry.EvalToplevel fuel reg m e with
    | error err => rw [h1] at h; exact absurd h (by simp)
    | ok m1 =>
      rw [h1] at h
      have hfs : m1.firstState = m.firstState := by
        cases e with
        | setStmt k v =>
          rw [Entry.EvalToplevel, Except.ok.injEq] at h1
          subst h1; rfl
        | stateEntry st =>
          obtain ⟨cst, _, hf⟩ := evalToplevel_state_shape fuel reg m st m1 h1
          rw [hf, if_neg hne]
      rw [← hfs]
      exact ih m1 h (by rw [hfs]; exact hne)

/-! ### Claim C10 -/

/-- C10: an AST whose top-level entries are all constant assignments makes
BuildMachine return the distinguished empty-state-machine error; an AST whose
entries all process successfully and that contains a state yields a compiled
machine, not that error. -/
theorem c10_empty_machine (fuel : Nat) (reg : Registry) (consts : AList GoVal)
    (entries : List Entry) :
    ((∀ e ∈ entries, ∃ k v, e = .setStmt k v) →
      BuildMachine fuel ⟨entries⟩ reg consts = .error .emptyMachine)
    ∧ (∀ (m : CompiledMachine) (st : State),
        buildEntries fuel reg (initialMachine consts) entries = .ok m →
        .stateEntry st ∈ entries →
        BuildMachine fuel ⟨entries⟩ reg consts = .ok m) := by
  constructor
  · intro h
    obtain ⟨m1, h1, h2, _⟩ := buildEntries_all_set fuel reg (initialMachine consts) entries h
    rw [BuildMachine]
    simp only [h1]
    rw [if_pos (by rw [h2]; rfl)]
  · intro m st h hmem
    have hp := buildEntries_state_present fuel reg entries (initialMachine consts) m st h hmem
    rw [BuildMachine]
    simp only [h]
    rw [if_neg ?_]
    intro hcon
    rw [hcon] at hp
    simp [alookup] at hp

/-- Witness for C10: a file of one assignment is rejected as empty, a file of
one empty state compiles. -/
theorem c10_empty_machine_witness :
    BuildMachine 5 ⟨[.setStmt "c" (.IntValue 1)]⟩ ⟨[], []⟩ [] = .error .emptyMachine
    ∧ BuildMachine 5 ⟨[.stateEntry ⟨"s", [], []⟩]⟩ ⟨[], []⟩ [] = .ok ⟨[], "s", [("s", ⟨[], []⟩)]⟩ :=
  ⟨(c10_empty_machine 5 ⟨[], []⟩ [] [.setStmt "c" (.IntValue 1)]).1
      (by intro e he; rw [List.mem_singleton] at he; exact ⟨"c", .IntValue 1, he⟩),
   (c10_empty_machine 5 ⟨[], []⟩ [] [.stateEntry ⟨"s", [], []⟩]).2
      ⟨[], "s", [("s", ⟨[], []⟩)]⟩ ⟨"s", [], []⟩ rfl (by simp)⟩

/-! ### Claim C6 -/

/-- An AST whose entry state moves elsewhere from its own init actions. -/
def c6Ast : File := ⟨[.stateEntry ⟨"a", [.moveStmt "b"], []⟩, .stateEntry ⟨"b", [], []⟩]⟩

/-- The machine compiled from c6Ast. -/
def c6m : CompiledMachine :=
  match BuildMachine 9 c6Ast ⟨[], []⟩ [] with
  | .ok m => m
  | .error _ => ⟨[], "", []⟩

/-- Counterexample to C6 as stated: c6Ast compiles successfully and its first
state in file order is a, yet instantiating yields an instance whose current
state is b, because the init actions of a perform a move. -/
theorem c6_counterexample :
    BuildMachine 9 c6Ast ⟨[], []⟩ [] = .ok c6m
    ∧ c6m.firstState = "a"
    ∧ c6m.New 9 = (.ok (), some "b")
    ∧ (some "b" : SMCur) ≠ some "a" :=
  ⟨rfl, rfl, rfl, by decide⟩

/-- The action loop does not change the current state when no action of the
list is a move. -/
theorem runActionsA_no_move (mv : String → SMCur → Except Err Unit × SMCur)
    (acts : List Action) (ev : AList GoVal) (cur : SMCur)
    (h : ∀ a ∈ acts, ∀ d, a ≠ Action.move d) : (runActionsA mv acts ev cur).2 = cur := by
  induction acts with
  | nil => rfl
  | cons a rest ih =>
    cases a with
    | move d => exact absurd rfl (h _ (by simp) d)
    | call nm => simpa [runActionsA, runActionA] using ih (fun a ha d => h a (by simp [ha]) d)

/-- batch does not change the current state when no action is a move. -/
theorem batchA_no_move (mv : String → SMCur → Except Err Unit × SMCur) (fuel : Nat)
    (acts : List Action) (ctx : Ctx) (cur : SMCur)
    (h : ∀ a ∈ acts, ∀ d, a ≠ Action.move d) : (batchA mv fuel acts ctx cur).2 = cur := by
  rw [batchA]
  cases evalCtx fuel ctx with
  | error e => rfl
  | ok ev => exact runActionsA_no_move mv acts ev cur h

/-- C6 amended: for every AST that compiles successfully whose first state
entry in file order (preceded only by constant assignments) has a nonempty
name, the designated first state is that state; instantiation runs exactly
one batch, the init actions of that state against the constant-only context,
and when none of those init actions is a move the current state of the new
instance is the first state.  (The counterexample shows the unconditional
claim fails when an init action moves.) -/
theorem c6_first_state_and_init
    (fuel fm : Nat) (reg : Registry) (consts : AList GoVal)
    (pre rest : List Entry) (st : State) (m : CompiledMachine)
    (hpre : ∀ e ∈ pre, ∃ k v, e = .setStmt k v)
    (hname : st.Name ≠ "")
    (hb : BuildMachine fuel ⟨pre ++ .stateEntry st :: rest⟩ reg consts = .ok m) :
    m.firstState = st.Name
    ∧ ∃ cst, alookup m.states st.Name = some cst
        ∧ m.New (fm + 1) = batchM m fm cst.Init m.constants (some st.Name)
        ∧ ((∀ a ∈ cst.Init, ∀ d, a ≠ Action.move d) → (m.New (fm + 1)).2 = some st.Name) := by
  cases hbe : buildEntries fuel reg (initialMachine consts) (pre ++ .stateEntry st :: rest) with
  | error e =>
    simp only [BuildMachine, hbe] at hb
    exact absurd hb (by simp)
  | ok m3 =>
    simp only [BuildMachine, hbe] at hb
    by_cases hstates : m3.states = []
    · rw [if_pos hstates] at hb; exact absurd hb (by simp)
    · rw [if_neg hstates, Except.ok.injEq] at hb
      subst hb
      rw [buildEntries_append] at hbe
      obtain ⟨m1, h1, hst1, hfs1⟩ := buildEntries_all_set fuel reg (initialMachine consts) pre hpre
      rw [h1] at hbe
      simp only [buildEntries] at hbe
      cases h2 : Entry.EvalToplevel fuel reg m1 (.stateEntry st) with
      | error e => rw [h2] at hbe; exact absurd hbe (by simp)
      | ok m2 =>
        rw [h2] at hbe
        obtain ⟨cst0, hs2, hf2⟩ := evalToplevel_state_shape fuel reg m1 st m2 h2
        have hf1 : m1.firstState = "" := by rw [hfs1]; rfl
        have hf2' : m2.firstState = st.Name := by rw [hf2, if_pos hf1]
        have hfm : m3.firstState = st.Name := by
          rw [buildEntries_firstState_persist fuel reg rest m2 m3 hbe
            (by rw [hf2']; exact hname), hf2']
        refine ⟨hfm, ?_⟩
        have hp : (alookup m3.states st.Name).isSome := by
          refine buildEntries_states_mono fuel reg rest m2 m3 hbe st.Name ?_
          rw [hs2, alookup_ainsert]
          simp
        obtain ⟨cst, hc⟩ := Option.isSome_iff_exists.mp hp
        refine ⟨cst, hc, ?_, ?_⟩
        · simp only [CompiledMachine.New, hfm, moveM, hc]
          rfl
        · intro hnm
          simp only [CompiledMachine.New, hfm, moveM, hc]
          exact batchA_no_move _ fm cst.Init m3.constants (some st.Name) hnm

/-- Witness for the amended C6: in the scenario machine the first state is a,
and since the init actions of a contain no move, a fresh instance is in a. -/
theorem c6_first_state_and_init_witness :
    specM.firstState = "a" ∧ (specM.New 9).2 = some "a" := by
  obtain ⟨h1, cst, hc, he, hnm⟩ :=
    c6_first_state_and_init 9 8 specReg [] [] [.stateEntry specStateB] specStateA specM
      (fun e he => absurd he (List.not_mem_nil e)) (by decide) rfl
  have hcomp : alookup specM.states specStateA.Name
      = some (⟨[], [⟨[⟨"A", [("event", GoVal.int 1)]⟩], [("event", .ValueInt)],
          [.move "b"]⟩]⟩ : CompiledState) := rfl
  obtain rfl := Option.some.inj (hcomp.symm.trans hc)
  exact ⟨h1, hnm (by intro a ha d; simp at ha)⟩

/-! ### Claim C8 -/

/-- A physical line delivered by ReadBytes always ends with the newline. -/
theorem readBytes_last_newline (input line rest : List Char)
    (h : readBytes input = some (line, rest)) : line.getLast? = some '\n' := by
  induction input generalizing line rest with
  | nil => exact absurd h (by simp [readBytes])
  | cons c cs ih =>
    rw [readBytes] at h
    by_cases hc : c = '\n'
    · rw [if_pos hc] at h
      simp only [Option.some.injEq, Prod.mk.injEq] at h
      obtain ⟨rfl, rfl⟩ := h
      subst hc
      rfl
    · rw [if_neg hc] at h
      cases hr : readBytes cs with
      | none => rw [hr] at h; exact absurd h (by simp)
      | some p =>
        obtain ⟨l1, r1⟩ := p
        rw [hr] at h
        simp only [Option.some.injEq, Prod.mk.injEq] at h
        obtain ⟨rfl, rfl⟩ := h
        have hl1 : l1.getLast? = some '\n' := ih l1 r1 hr
        cases l1 with
        | nil => simp at hl1
        | cons x xs =>
          rw [List.getLast?_cons_cons]
          exact hl1

/-- C8: the backslash line-continuation of readLine never happens, because
the byte the code inspects is the final newline, never a backslash: on the
input consisting of the physical lines a-backslash and b, the logical line
returned is the first physical line, unjoined, with its backslash and
newline intact (the join the claim describes would yield the characters a b
newline and leave no rest). -/
theorem c8_continuation_never_joins :
    readLine ['a', '\\', '\n', 'b', '\n'] = some (['a', '\\', '\n'], ['b', '\n'])
    ∧ some ((['a', '\\', '\n'], ['b', '\n']))
        ≠ some ((['a', 'b', '\n'], ([] : List Char))) := by
  constructor
  · rfl
  · decide

/-- General form of the C8 divergence: whatever readLine returns is exactly
what the first call to readBytes produced, so no join ever occurs. -/
theorem readLine_never_joins (input line rest : List Char)
    (h : readLine input = some (line, rest)) : readBytes input = some (line, rest) := by
  cases hr : readBytes input with
  | none =>
    rw [readLine, readLineGo, hr] at h
    exact absurd h (by simp)
  | some p =>
    obtain ⟨l1, r1⟩ := p
    have hlast : l1.getLast? = some '\n' := readBytes_last_newline input l1 r1 hr
    have hstep : readLine input = some (l1, r1) := by
      rw [readLine, readLineGo, hr]
      show (if l1.getLast? = some '\\' then readLineGo input.length ([] ++ l1.dropLast) r1
        else some ([] ++ l1, r1)) = some (l1, r1)
      rw [if_neg (by rw [hlast]; decide)]
      simp
    rw [hstep] at h
    simp only [Option.some.injEq, Prod.mk.injEq] at h
    obtain ⟨rfl, rfl⟩ := h
    rfl

/-! ### Claim C9 -/

/-- Counterexample to C9 as stated: a bare condition parameter is not
desugared to a reference to the same-named variable; parseParam returns the
parameter with no value at all (a nil constraint), which differs from the
name-equals-name form the claim describes. -/
theorem c9_counterexample :
    parseParam [⟨"identifier", "y"⟩, ⟨"punct", ")"⟩]
      = .ok (⟨"y", none⟩, [⟨"punct", ")"⟩])
    ∧ (⟨"y", none⟩ : Arg) ≠ ⟨"y", some (.ReferenceValue "y")⟩ :=
  ⟨rfl, by decide⟩

/-- C9 amended: a bare action argument (no equals sign) desugars to a
reference to the same-named variable, while a bare condition parameter is
recorded with no constraint value, declaring the event-data field without
restricting it. -/
theorem c9_bare_shorthand (key : String) (rest : List Tok)
    (hne : peekValue rest ≠ "=") :
    parseArg (⟨"identifier", key⟩ :: rest) = .ok ((key, .ReferenceValue key), rest)
    ∧ parseParam (⟨"identifier", key⟩ :: rest) = .ok (⟨key, none⟩, rest) := by
  constructor
  · simp [parseArg, pExpect, hne]
  · simp [parseParam, pExpect, hne]

/-- Witness for the amended C9 at a concrete token stream. -/
theorem c9_bare_shorthand_witness :
    parseArg [⟨"identifier", "x"⟩, ⟨"punct", ")"⟩]
      = .ok (("x", .ReferenceValue "x"), [⟨"punct", ")"⟩])
    ∧ parseParam [⟨"identifier", "x"⟩, ⟨"punct", ")"⟩]
      = .ok (⟨"x", none⟩, [⟨"punct", ")"⟩]) :=
  c9_bare_shorthand "x" [⟨"punct", ")"⟩] (by decide)

/-! ### Key-uniqueness apparatus for C2

The Go maps have unique keys by construction; the association lists standing
for them keep that uniqueness through insert and delete, which the analysis
of the drop loop of Trigger.evalTrigger relies on. -/

/-- An association list with pairwise distinct keys. -/
def UniqKeys {α : Type} (l : AList α) : Prop := (l.map Prod.fst).Nodup

theorem mem_keys_iff_isSome {α : Type} (l : AList α) (n : String) :
    n ∈ l.map Prod.fst ↔ (alookup l n).isSome := by
  induction l with
  | nil => simp [alookup]
  | cons p rest ih =>
    by_cases h : p.1 = n
    · simp [alookup, h]
    · simp [alookup, h, ih, Ne.symm h]

theorem mem_keys_ainsert {α : Type} (l : AList α) (k : String) (v : α) (n : String) :
    n ∈ (ainsert l k v).map Prod.fst ↔ n ∈ l.map Prod.fst ∨ n = k := by
  rw [mem_keys_iff_isSome, mem_keys_iff_isSome, alookup_ainsert]
  by_cases h : k = n
  · simp [h]
  · simp [h, Ne.symm h]

theorem UniqKeys_ainsert {α : Type} (l : AList α) (k : String) (v : α)
    (h : UniqKeys l) : UniqKeys (ainsert l k v) := by
  induction l with
  | nil => simp [UniqKeys, ainsert]
  | cons p rest ih =>
    obtain ⟨p1, p2⟩ := p
    rw [UniqKeys, List.map_cons, List.nodup_cons] at h
    obtain ⟨hnotin, hrest⟩ := h
    by_cases hk : p1 = k
    · rw [UniqKeys]
      simp only [ainsert, if_pos hk, List.map_cons, List.nodup_cons]
      exact ⟨hnotin, hrest⟩
    · rw [UniqKeys]
      simp only [ainsert, if_neg hk, List.map_cons, List.nodup_cons]
      refine ⟨?_, ih hrest⟩
      rw [mem_keys_ainsert]
      rintro (h1 | h1)
      · exact hnotin h1
      · exact hk h1

theorem UniqKeys_aerase {α : Type} (l : AList α) (k : String)
    (h : UniqKeys l) : UniqKeys (aerase l k) := by
  exact List.Nodup.sublist (List.Sublist.map Prod.fst (List.filter_sublist l)) h

theorem alookup_none_of_not_mem_keys {α : Type} (l : AList α) (n : String)
    (h : n ∉ l.map Prod.fst) : alookup l n = none := by
  rw [mem_keys_iff_isSome] at h
  exact Option.not_isSome_iff_eq_none.mp h

/-! ### Shape of one parameter step (C2) -/

/-- The constraint step changes only the condition under construction. -/
theorem condStep_shape (fuel : Nat) (constants : Ctx) (param : Arg) (st st1 : PState)
    (argtype : ValueType) (h : condStep fuel constants param st argtype = .ok st1) :
    st1.dts = st.dts ∧ st1.pk = st.pk ∧ st1.localCtx = st.localCtx := by
  cases hv : param.Val with
  | none =>
    simp only [condStep, hv, Except.ok.injEq] at h
    subst h
    exact ⟨rfl, rfl, rfl⟩
  | some v =>
    simp only [condStep, hv] at h
    cases het : evalType fuel v constants with
    | error e =>
      simp only [het] at h
      exact absurd h (by simp)
    | ok condtype =>
      simp only [het] at h
      by_cases hc : condtype = argtype
      · rw [if_pos hc] at h
        cases hev : evalValue fuel v constants with
        | error e =>
          simp only [hev] at h
          exact absurd h (by simp)
        | ok val =>
          simp only [hev, Except.ok.injEq] at h
          subst h
          exact ⟨rfl, rfl, rfl⟩
      · rw [if_neg hc] at h; exact absurd h (by simp)

/-- One successful parameter step marks the name as mentioned and either
leaves datatypes unchanged (the name was already declared) or records the
new declaration in datatypes and the local context. -/
theorem processParam_shape (fuel : Nat) (constants : Ctx) (trgname : String)
    (spec : TriggerSpec) (st st' : PState) (p : Arg)
    (h : processParam fuel constants trgname spec st p = .ok st') :
    st'.pk = ainsert st.pk p.Key true
    ∧ ((alookup st.dts p.Key).isSome ∧ st'.dts = st.dts ∧ st'.localCtx = st.localCtx
       ∨ alookup st.dts p.Key = none
         ∧ ∃ t, st'.dts = ainsert st.dts p.Key t
             ∧ st'.localCtx = ainsert st.localCtx p.Key (.TypeDummyValue t)) := by
  cases ho : alookup spec.Outputs p.Key with
  | none =>
    simp only [processParam, ho] at h
    exact absurd h (by simp)
  | some argtype =>
    simp only [processParam, ho] at h
    cases hcs : condStep fuel constants p st argtype with
    | error e =>
      simp only [hcs] at h
      exact absurd h (by simp)
    | ok st1 =>
      simp only [hcs] at h
      obtain ⟨hd, hp, hl⟩ := condStep_shape fuel constants p st st1 argtype hcs
      simp only [declStep] at h
      cases hd1 : alookup st1.dts p.Key with
      | some prevtype =>
        simp only [hd1] at h
        by_cases hpt : prevtype = argtype
        · rw [if_pos hpt, Except.ok.injEq] at h
          subst h
          refine ⟨by rw [hp], Or.inl ⟨?_, by rw [hd], by rw [hl]⟩⟩
          rw [← hd, hd1]
          rfl
        · rw [if_neg hpt] at h; exact absurd h (by simp)
      | none =>
        simp only [hd1, Except.ok.injEq] at h
        subst h
        exact ⟨by rw [hp], Or.inr ⟨by rw [← hd, hd1], argtype, by rw [hd], by rw [hl]⟩⟩

/-! ### The parameter loop invariant (C2) -/

/-- After a successful run of the parameter loop, a name is declared exactly
when it was declared before or the condition mentions it, and the mention map
holds true exactly for the mentioned names. -/
theorem processParams_invariant (fuel : Nat) (constants : Ctx) (trgname : String)
    (spec : TriggerSpec) (ps : List Arg) (st st' : PState)
    (h : processParams fuel constants trgname spec st ps = .ok st') :
    (∀ n, (alookup st'.dts n).isSome
        ↔ ((alookup st.dts n).isSome ∨ n ∈ ps.map Arg.Key))
    ∧ (∀ n, alookup st'.pk n
        = if n ∈ ps.map Arg.Key then some true else alookup st.pk n) := by
  induction ps generalizing st with
  | nil =>
    rw [processParams, Except.ok.injEq] at h
    subst h
    exact ⟨fun n => by simp, fun n => by simp⟩
  | cons p rest ih =>
    rw [processParams] at h
    cases hp : processParam fuel constants trgname spec st p with
    | error e => rw [hp] at h; exact absurd h (by simp)
    | ok st1 =>
      rw [hp] at h
      obtain ⟨ha, hb⟩ := ih st1 h
      obtain ⟨hpk, hshape⟩ := processParam_shape fuel constants trgname spec st st1 p hp
      constructor
      · intro n
        rw [ha n]
        simp only [List.map_cons, List.mem_cons]
        rcases hshape with ⟨hsome, hdts, _⟩ | ⟨hnone, t, hdts, _⟩
        · rw [hdts]
          constructor
          · rintro (h1 | h1)
            · exact Or.inl h1
            · exact Or.inr (Or.inr h1)
          · rintro (h1 | h1 | h1)
            · exact Or.inl h1
            · subst h1; exact Or.inl hsome
            · exact Or.inr h1
        · rw [hdts, alookup_ainsert]
          by_cases hn : p.Key = n
          · simp [hn]
          · simp [hn, Ne.symm hn]
      · intro n
        rw [hb n, hpk, alookup_ainsert]
        simp only [List.map_cons, List.mem_cons]
        by_cases h1 : n ∈ rest.map Arg.Key
        · simp [h1]
        · by_cases h2 : n = p.Key
          · simp [h1, h2]
          · simp [h1, h2, Ne.symm h2]

/-- The parameter loop preserves key uniqueness of datatypes and prevkeys. -/
theorem processParams_uniq (fuel : Nat) (constants : Ctx) (trgname : String)
    (spec : TriggerSpec) (ps : List Arg) (st st' : PState)
    (h : processParams fuel constants trgname spec st ps = .ok st') :
    (UniqKeys st.dts → UniqKeys st'.dts) ∧ (UniqKeys st.pk → UniqKeys st'.pk) := by
  induction ps generalizing st with
  | nil =>
    rw [processParams, Except.ok.injEq] at h
    subst h
    exact ⟨id, id⟩
  | cons p rest ih =>
    rw [processParams] at h
    cases hp : processParam fuel constants trgname spec st p with
    | error e => rw [hp] at h; exact absurd h (by simp)
    | ok st1 =>
      rw [hp] at h
      obtain ⟨ihd, ihp⟩ := ih st1 h
      obtain ⟨hpk, hshape⟩ := processParam_shape fuel constants trgname spec st st1 p hp
      refine ⟨fun hu => ihd ?_, fun hu => ihp ?_⟩
      · rcases hshape with ⟨_, hdts, _⟩ | ⟨_, t, hdts, _⟩
        · rw [hdts]; exact hu
        · rw [hdts]; exact UniqKeys_ainsert st.dts p.Key t hu
      · rw [hpk]; exact UniqKeys_ainsert st.pk p.Key true hu

/-! ### The drop loop (C2) -/

/-- The drop loop never introduces a datatypes binding. -/
theorem dropUnmentioned_none (pk : AList Bool) (dts : AList ValueType) (loc : Ctx)
    (n : String) (h : alookup dts n = none) :
    alookup (dropUnmentioned pk (dts, loc)).1 n = none := by
  induction pk generalizing dts loc with
  | nil => simpa [dropUnmentioned] using h
  | cons q rest ih =>
    obtain ⟨k, b⟩ := q
    cases b with
    | true => simpa [dropUnmentioned] using ih dts loc h
    | false =>
      rw [dropUnmentioned]
      simp only [Bool.false_eq_true, if_false]
      refine ih (aerase dts k) (aerase loc k) ?_
      rw [alookup_aerase]
      by_cases hn : n = k
      · simp [hn]
      · simp [hn, h]

/-- Lookup in the datatypes after the drop loop: a name recorded as
unmentioned is gone, every other name keeps its previous binding. -/
theorem dropUnmentioned_lookup_fst (pk : AList Bool) (dts : AList ValueType) (loc : Ctx)
    (hu : UniqKeys pk) (n : String) :
    alookup (dropUnmentioned pk (dts, loc)).1 n
      = match alookup pk n with
        | some false => none
        | _ => alookup dts n := by
  induction pk generalizing dts loc with
  | nil => simp [dropUnmentioned, alookup]
  | cons q rest ih =>
    obtain ⟨k, b⟩ := q
    rw [UniqKeys, List.map_cons, List.nodup_cons] at hu
    obtain ⟨hknotin, hrest⟩ := hu
    have hrnone : alookup rest k = none := alookup_none_of_not_mem_keys rest k hknotin
    cases b with
    | false =>
      rw [dropUnmentioned]
      simp only [Bool.false_eq_true, if_false]
      rw [ih (aerase dts k) (aerase loc k) hrest]
      by_cases hn : k = n
      · subst hn
        rw [hrnone, alookup, if_pos rfl]
        rw [alookup_aerase, if_pos rfl]
      · rw [alookup, if_neg hn, alookup_aerase, if_neg (fun hh => hn hh.symm)]
    | true =>
      rw [dropUnmentioned]
      simp only [if_true]
      rw [ih dts loc hrest]
      by_cases hn : k = n
      · subst hn
        rw [hrnone, alookup, if_pos rfl]
      · rw [alookup, if_neg hn]

/-- Visibility after one condition: a successfully processed condition leaves
exactly the names it mentions visible — a name declared before stays visible
only when re-declared here, an omitted name is dropped, and the drop is not
an error (processing succeeded). -/
theorem processCond_visibility (fuel : Nat) (constants : Ctx) (reg : Registry)
    (acc : TState) (c : TriggerCond) (res : TState)
    (hu : UniqKeys acc.dts)
    (h : processCond fuel constants reg acc c = .ok res) :
    ∀ n, ((alookup res.dts n).isSome ↔ n ∈ c.Params.map Arg.Key) := by
  cases hspec : alookup reg.Triggers c.Name with
  | none =>
    simp only [processCond, hspec] at h
    exact absurd h (by simp)
  | some spec =>
    simp only [processCond, hspec] at h
    cases hpp : processParams fuel constants c.Name spec
        ⟨⟨c.Name, []⟩, acc.dts, acc.localCtx, acc.dts.map (fun p => (p.1, false))⟩ c.Params with
    | error e =>
      simp only [hpp] at h
      exact absurd h (by simp)
    | ok stF =>
      simp only [hpp, Except.ok.injEq] at h
      subst h
      obtain ⟨ha, hb⟩ := processParams_invariant fuel constants c.Name spec c.Params _ stF hpp
      have hupk : UniqKeys stF.pk := by
        refine (processParams_uniq fuel constants c.Name spec c.Params _ stF hpp).2 ?_
        show (((acc.dts.map (fun p => (p.1, false))).map Prod.fst)).Nodup
        rw [List.map_map]
        exact hu
      intro n
      have hdrop := dropUnmentioned_lookup_fst stF.pk stF.dts stF.localCtx hupk n
      show (alookup (dropUnmentioned stF.pk (stF.dts, stF.localCtx)).1 n).isSome
        ↔ n ∈ c.Params.map Arg.Key
      by_cases hmem : n ∈ c.Params.map Arg.Key
      · have hpk : alookup stF.pk n = some true := by rw [hb n, if_pos hmem]
        have hval : alookup (dropUnmentioned stF.pk (stF.dts, stF.localCtx)).1 n
            = alookup stF.dts n := by rw [hdrop, hpk]
        rw [hval, ha n]
        simp [hmem]
      · have hpk : alookup stF.pk n = (alookup acc.dts n).map (fun _ => false) := by
          rw [hb n, if_neg hmem, alookup_mark_false]
        cases hacc : alookup acc.dts n with
        | some t =>
          have hpk2 : alookup stF.pk n = some false := by rw [hpk, hacc]; rfl
          have hval : alookup (dropUnmentioned stF.pk (stF.dts, stF.localCtx)).1 n
              = none := by rw [hdrop, hpk2]
          rw [hval]
          simp [hmem]
        | none =>
          have hpk2 : alookup stF.pk n = none := by rw [hpk, hacc]; rfl
          have hval : alookup (dropUnmentioned stF.pk (stF.dts, stF.localCtx)).1 n
              = alookup stF.dts n := by rw [hdrop, hpk2]
          rw [hval, ha n]
          simp [hmem, hacc]

/-! ### Claim C2 -/

/-- Registry for the C2 instance: triggers T1 (integer fields x and y) and
T2 (integer field x), and one action act with integer input k. -/
def c2reg : Registry :=
  ⟨[("T1", ⟨"T1", [("x", .ValueInt), ("y", .ValueInt)]⟩), ("T2", ⟨"T2", [("x", .ValueInt)]⟩)],
   [("act", ⟨"act", [("k", .ValueInt)]⟩)]⟩

/-- A trigger whose first condition declares x and y, whose second condition
re-declares only x, and whose single action passes the given value as k. -/
def c2trigger (v : Value) : Trigger :=
  ⟨[⟨"T1", [⟨"x", none⟩, ⟨"y", none⟩]⟩, ⟨"T2", [⟨"x", none⟩]⟩],
   [.call "act" [⟨"k", some v⟩]]⟩

/-- One condition declaring the bare parameter x, and the state the condition
loop reaches after it, starting from nothing. -/
def c2cond : TriggerCond := ⟨"T1", [⟨"x", none⟩]⟩

/-- The loop state after processing c2cond from the empty start state. -/
def c2res : TState := ⟨[("x", .ValueInt)], [("x", .TypeDummyValue .ValueInt)], [⟨"T1", []⟩]⟩

/-- C2: event-data visibility across the condition list of a trigger.
First conjunct (the narrowing rule, for every successfully processed
condition): after a condition is processed, exactly the names that condition
mentions are visible — a name declared by an earlier condition stays visible
only if re-declared, an omitted name is dropped before the next condition,
and the drop leaves compilation succeeding (a warning is only logged).
Second and third conjuncts (the particular case of the claim, with C1
declaring x and y and C2 declaring only x): an action referencing x compiles,
with exactly x left visible, while an action referencing y fails compilation
with an undefined-variable error. -/
theorem c2_scope_narrowing :
    (∀ (fuel : Nat) (constants : Ctx) (reg : Registry) (acc : TState) (c : TriggerCond)
       (res : TState), UniqKeys acc.dts →
       processCond fuel constants reg acc c = .ok res →
       ∀ n, ((alookup res.dts n).isSome ↔ n ∈ c.Params.map Arg.Key))
    ∧ Trigger.evalTrigger 5 [] c2reg (c2trigger (.ReferenceValue "x"))
        = .ok ⟨[⟨"T1", []⟩, ⟨"T2", []⟩], [("x", .ValueInt)], [.call "act"]⟩
    ∧ Trigger.evalTrigger 5 [] c2reg (c2trigger (.ReferenceValue "y"))
        = .error (.argTypeError "k" (.undefinedVariable "y")) :=
  ⟨fun fuel constants reg acc c res hu h => processCond_visibility fuel constants reg acc c res hu h,
   rfl, rfl⟩

/-- Witness for C2: after the single condition c2cond, the name x is visible
and the name y is not. -/
theorem c2_scope_narrowing_witness :
    ((alookup c2res.dts "x").isSome ↔ "x" ∈ c2cond.Params.map Arg.Key)
    ∧ ((alookup c2res.dts "y").isSome ↔ "y" ∈ c2cond.Params.map Arg.Key) :=
  ⟨c2_scope_narrowing.1 5 [] c2reg ⟨[], [], []⟩ c2cond c2res (by simp [UniqKeys]) rfl "x",
   c2_scope_narrowing.1 5 [] c2reg ⟨[], [], []⟩ c2cond c2res (by simp [UniqKeys]) rfl "y"⟩

end Mova
